import Mathlib

/-!
Verification of the `ParcelStore` repository (`parcel.go`).

The store mediates access to a single SQLite table
`parcel(number INTEGER PRIMARY KEY AUTOINCREMENT, client, status, address, created_at)`.
We embed the table as a list of rows in insertion order together with the
engine's next auto-generated key.  Each operation is translated from the
single SQL statement it executes:

* `Add`        — `INSERT INTO parcel (client, status, address, created_at) VALUES (?, ?, ?, ?)`
                 followed by `LastInsertId`;
* `Get`        — `SELECT * FROM parcel WHERE number = ?` through `QueryRow`
                 (first matching row in table order; `none` models `sql.ErrNoRows`);
* `GetByClient`— `SELECT * FROM parcel WHERE client = ?` (all matching rows in table order);
* `SetStatus`  — `UPDATE parcel SET status = ? WHERE number = ?`;
* `SetAddress` — `UPDATE parcel SET address = ? WHERE number = ? AND status = 'registered'`;
* `Delete`     — `DELETE FROM parcel WHERE number = ? AND status = 'registered'`.

Engine failures (connectivity, malformed statements) are outside the model:
the Go code propagates them verbatim and takes no decision on them.  The only
domain-visible error is `sql.ErrNoRows` out of `Get`, modelled by `Option`.
-/

/-- A parcel row.  Modelled from the spec: the `Parcel` struct declaration is
not under `src/` (only its users are); its fields and their order follow §3 of
the spec and the `row.Scan(&p.Number, &p.Client, &p.Status, &p.Address,
&p.CreatedAt)` call in `parcel.go`. -/
structure Parcel where
  number : Int
  client : Int
  status : String
  address : String
  createdAt : String
deriving DecidableEq, Repr

/-- Modelled from the spec: the constant `ParcelStatusRegistered` is declared
outside `src/`; its value is pinned by the SQL literal `'registered'` in
`parcel.go` and by §3 of the spec. -/
def ParcelStatusRegistered : String := "registered"

/-- The state of the `parcel` table: rows in insertion order, plus the next
primary key the engine will assign (`AUTOINCREMENT`). -/
structure ParcelStore where
  rows : List Parcel
  nextNumber : Int
deriving DecidableEq, Repr

/-- First row with the given number, scanning in table order: the semantics of
`QueryRow("SELECT * FROM parcel WHERE number = ?")` followed by `Scan`;
`none` models `sql.ErrNoRows`. -/
def findByNumber (n : Int) : List Parcel → Option Parcel
  | [] => none
  | r :: rs => if r.number = n then some r else findByNumber n rs

/-- All rows with the given client, in table order: the semantics of
`Query("SELECT * FROM parcel WHERE client = ?")` with the scan loop. -/
def rowsByClient (c : Int) : List Parcel → List Parcel
  | [] => []
  | r :: rs => if r.client = c then r :: rowsByClient c rs else rowsByClient c rs

/-- Row transformation of `UPDATE parcel SET status = ? WHERE number = ?`. -/
def updStatus (n : Int) (st : String) (r : Parcel) : Parcel :=
  if r.number = n then { r with status := st } else r

/-- Row transformation of
`UPDATE parcel SET address = ? WHERE number = ? AND status = 'registered'`. -/
def updAddress (n : Int) (a : String) (r : Parcel) : Parcel :=
  if r.number = n ∧ r.status = "registered" then { r with address := a } else r

/-- Table transformation of
`DELETE FROM parcel WHERE number = ? AND status = 'registered'`. -/
def deleteRows (n : Int) : List Parcel → List Parcel
  | [] => []
  | r :: rs =>
      if r.number = n ∧ r.status = "registered" then deleteRows n rs
      else r :: deleteRows n rs

/-- `Add` (`parcel.go` 15–28): the INSERT binds `p.Client`, `p.Status`,
`p.Address`, `p.CreatedAt` — the input's `Number` is never read; the engine
assigns the fresh key, which `LastInsertId` returns. -/
def ParcelStore.Add (s : ParcelStore) (p : Parcel) : Int × ParcelStore :=
  (s.nextNumber,
   { rows := s.rows ++
       [{ number := s.nextNumber, client := p.client, status := p.status,
          address := p.address, createdAt := p.createdAt }],
     nextNumber := s.nextNumber + 1 })

/-- `Get` (`parcel.go` 30–43). -/
def ParcelStore.Get (s : ParcelStore) (number : Int) : Option Parcel :=
  findByNumber number s.rows

/-- `GetByClient` (`parcel.go` 45–67). -/
def ParcelStore.GetByClient (s : ParcelStore) (client : Int) : List Parcel :=
  rowsByClient client s.rows

/-- `SetStatus` (`parcel.go` 69–74). -/
def ParcelStore.SetStatus (s : ParcelStore) (number : Int) (status : String) :
    ParcelStore :=
  { s with rows := s.rows.map (updStatus number status) }

/-- `SetAddress` (`parcel.go` 76–83). -/
def ParcelStore.SetAddress (s : ParcelStore) (number : Int) (address : String) :
    ParcelStore :=
  { s with rows := s.rows.map (updAddress number address) }

/-- `Delete` (`parcel.go` 85–91). -/
def ParcelStore.Delete (s : ParcelStore) (number : Int) : ParcelStore :=
  { s with rows := deleteRows number s.rows }

/-- Well-formedness guaranteed by the schema: `number` is a primary key, so
row numbers are distinct, and `AUTOINCREMENT` keeps every assigned number
below the next one. -/
def ParcelStore.WF (s : ParcelStore) : Prop :=
  (s.rows.map Parcel.number).Nodup ∧ ∀ r ∈ s.rows, r.number < s.nextNumber

instance (s : ParcelStore) : Decidable s.WF := by
  unfold ParcelStore.WF; infer_instance

/-! ### Concrete data used by the witnesses -/

def rowReg : Parcel :=
  { number := 1, client := 7, status := "registered", address := "addr one",
    createdAt := "2024-01-01T00:00:00Z" }

def rowSent : Parcel :=
  { number := 2, client := 7, status := "sent", address := "addr two",
    createdAt := "2024-01-02T00:00:00Z" }

def sampleStore : ParcelStore := { rows := [rowReg, rowSent], nextNumber := 3 }

def testParcel : Parcel :=
  { number := 0, client := 1000, status := "registered", address := "test",
    createdAt := "2024-03-01T00:00:00Z" }

/-! ### Basic lemmas about the row-level operations -/

theorem findByNumber_eq_none {n : Int} {l : List Parcel} :
    findByNumber n l = none ↔ ∀ r ∈ l, r.number ≠ n := by
  induction l with
  | nil => simp [findByNumber]
  | cons x xs ih =>
      by_cases hx : x.number = n <;> simp [findByNumber, hx, ih]

theorem findByNumber_eq_some {n : Int} {l : List Parcel} {r : Parcel}
    (h : findByNumber n l = some r) : r ∈ l ∧ r.number = n := by
  induction l with
  | nil => simp [findByNumber] at h
  | cons x xs ih =>
      by_cases hx : x.number = n
      · simp [findByNumber, hx] at h
        exact ⟨by simp [← h], h ▸ hx⟩
      · simp [findByNumber, hx] at h
        rcases ih h with ⟨hmem, hnum⟩
        exact ⟨List.mem_cons_of_mem _ hmem, hnum⟩

/-- Scanning a pointwise-updated table: if the update preserves row numbers,
the first match commutes with the update. -/
theorem findByNumber_map {n : Int} {f : Parcel → Parcel}
    (hf : ∀ r, (f r).number = r.number) (l : List Parcel) :
    findByNumber n (l.map f) = (findByNumber n l).map f := by
  induction l with
  | nil => simp [findByNumber]
  | cons x xs ih =>
      by_cases hx : x.number = n
      · simp [findByNumber, hf, hx]
      · simp [findByNumber, hf, hx, ih]

theorem updStatus_number (n : Int) (st : String) (r : Parcel) :
    (updStatus n st r).number = r.number := by
  unfold updStatus; split <;> rfl

theorem updAddress_number (n : Int) (a : String) (r : Parcel) :
    (updAddress n a r).number = r.number := by
  unfold updAddress; split <;> rfl

theorem updStatus_of_ne {n : Int} {st : String} {r : Parcel}
    (h : r.number ≠ n) : updStatus n st r = r := by
  unfold updStatus; simp [h]

theorem updAddress_of_ne {n : Int} {a : String} {r : Parcel}
    (h : r.number ≠ n) : updAddress n a r = r := by
  unfold updAddress; simp [h]

/-- Rows whose number never hits `n` are untouched by the status update. -/
theorem map_updStatus_id {n : Int} {st : String} {l : List Parcel}
    (h : ∀ r ∈ l, r.number ≠ n) : l.map (updStatus n st) = l := by
  induction l with
  | nil => rfl
  | cons x xs ih =>
      simp only [List.map_cons]
      rw [updStatus_of_ne (h x (List.mem_cons_self x xs)),
        ih fun r hr => h r (List.mem_cons_of_mem _ hr)]

/-- Rows that never satisfy the gate predicate are untouched by the address
update. -/
theorem map_updAddress_id {n : Int} {a : String} {l : List Parcel}
    (h : ∀ r ∈ l, ¬(r.number = n ∧ r.status = "registered")) :
    l.map (updAddress n a) = l := by
  induction l with
  | nil => rfl
  | cons x xs ih =>
      simp only [List.map_cons]
      have hx : updAddress n a x = x := by
        unfold updAddress
        simp [h x (List.mem_cons_self x xs)]
      rw [hx, ih fun r hr => h r (List.mem_cons_of_mem _ hr)]

/-- Rows that never satisfy the gate predicate survive the delete untouched. -/
theorem deleteRows_id {n : Int} {l : List Parcel}
    (h : ∀ r ∈ l, ¬(r.number = n ∧ r.status = "registered")) :
    deleteRows n l = l := by
  induction l with
  | nil => rfl
  | cons x xs ih =>
      unfold deleteRows
      simp only [h x (List.mem_cons_self x xs), if_false]
      rw [ih fun r hr => h r (List.mem_cons_of_mem _ hr)]

/-- With distinct numbers, the row `findByNumber` returns is the only row
carrying that number. -/
theorem findByNumber_unique {n : Int} {l : List Parcel} {r : Parcel}
    (hnd : (l.map Parcel.number).Nodup) (h : findByNumber n l = some r) :
    ∀ x ∈ l, x.number = n → x = r := by
  induction l with
  | nil => simp [findByNumber] at h
  | cons y ys ih =>
      simp only [List.map_cons, List.nodup_cons] at hnd
      intro x hx hxn
      by_cases hy : y.number = n
      · simp [findByNumber, hy] at h
        rcases List.mem_cons.mp hx with hxy | hxys
        · exact hxy.trans h
        · exfalso
          exact hnd.1 (by
            have : x.number ∈ ys.map Parcel.number := List.mem_map_of_mem _ hxys
            rwa [hxn, ← hy] at this)
      · simp [findByNumber, hy] at h
        rcases List.mem_cons.mp hx with hxy | hxys
        · exact absurd (hxy ▸ hxn) hy
        · exact ih hnd.2 h x hxys hxn

@[simp] theorem deleteRows_nil (n : Int) : deleteRows n [] = [] := rfl

theorem deleteRows_cons (n : Int) (y : Parcel) (ys : List Parcel) :
    deleteRows n (y :: ys) =
      if y.number = n ∧ y.status = "registered" then deleteRows n ys
      else y :: deleteRows n ys := rfl

@[simp] theorem findByNumber_nil (n : Int) : findByNumber n [] = none := rfl

theorem findByNumber_cons (n : Int) (y : Parcel) (ys : List Parcel) :
    findByNumber n (y :: ys) =
      if y.number = n then some y else findByNumber n ys := rfl

@[simp] theorem rowsByClient_nil (c : Int) : rowsByClient c [] = [] := rfl

theorem rowsByClient_cons (c : Int) (y : Parcel) (ys : List Parcel) :
    rowsByClient c (y :: ys) =
      if y.client = c then y :: rowsByClient c ys else rowsByClient c ys := rfl

/-- `deleteRows` is a filter: a row survives iff it was present and fails the
gate predicate. -/
theorem mem_deleteRows {n : Int} {l : List Parcel} {x : Parcel} :
    x ∈ deleteRows n l ↔ x ∈ l ∧ ¬(x.number = n ∧ x.status = "registered") := by
  induction l with
  | nil => simp
  | cons y ys ih =>
      rw [deleteRows_cons]
      by_cases hy : y.number = n ∧ y.status = "registered"
      · rw [if_pos hy]
        simp only [ih, List.mem_cons]
        constructor
        · rintro ⟨hmem, hnp⟩; exact ⟨Or.inr hmem, hnp⟩
        · rintro ⟨hmem | hmem, hnp⟩
          · exact absurd (hmem ▸ hy) hnp
          · exact ⟨hmem, hnp⟩
      · rw [if_neg hy]
        simp only [List.mem_cons, ih]
        constructor
        · rintro (hxy | ⟨hmem, hnp⟩)
          · exact ⟨Or.inl hxy, hxy ▸ hy⟩
          · exact ⟨Or.inr hmem, hnp⟩
        · rintro ⟨hxy | hmem, hnp⟩
          · exact Or.inl hxy
          · exact Or.inr ⟨hmem, hnp⟩

theorem deleteRows_append (n : Int) (l₁ l₂ : List Parcel) :
    deleteRows n (l₁ ++ l₂) = deleteRows n l₁ ++ deleteRows n l₂ := by
  induction l₁ with
  | nil => simp
  | cons y ys ih =>
      rw [List.cons_append, deleteRows_cons, deleteRows_cons]
      by_cases hy : y.number = n ∧ y.status = "registered"
      · rw [if_pos hy, if_pos hy, ih]
      · rw [if_neg hy, if_neg hy, ih, List.cons_append]

theorem findByNumber_append_of_none {n : Int} {l₁ : List Parcel}
    (h : findByNumber n l₁ = none) (l₂ : List Parcel) :
    findByNumber n (l₁ ++ l₂) = findByNumber n l₂ := by
  induction l₁ with
  | nil => simp
  | cons y ys ih =>
      rw [findByNumber_cons] at h
      by_cases hy : y.number = n
      · rw [if_pos hy] at h; exact absurd h (by simp)
      · rw [if_neg hy] at h
        rw [List.cons_append, findByNumber_cons, if_neg hy]
        exact ih h

/-- With distinct numbers, deleting a registered row found by `findByNumber`
erases exactly that row. -/
theorem deleteRows_eq_erase {n : Int} {l : List Parcel} {r : Parcel}
    (hnd : (l.map Parcel.number).Nodup) (h : findByNumber n l = some r)
    (hreg : r.status = "registered") : deleteRows n l = l.erase r := by
  induction l with
  | nil => simp at h
  | cons y ys ih =>
      simp only [List.map_cons, List.nodup_cons] at hnd
      rw [findByNumber_cons] at h
      rw [deleteRows_cons]
      by_cases hy : y.number = n
      · rw [if_pos hy] at h
        have hyr : y = r := by simpa using h
        have hys : deleteRows n ys = ys := by
          apply deleteRows_id
          intro x hx hcon
          exact hnd.1 (by
            have hxm : x.number ∈ ys.map Parcel.number := List.mem_map_of_mem _ hx
            rwa [hcon.1, ← hy] at hxm)
        rw [if_pos ⟨hy, hyr ▸ hreg⟩, hys, hyr, List.erase_cons_head]
      · rw [if_neg hy] at h
        have hrn : r.number = n := (findByNumber_eq_some h).2
        have hyrne : ¬(y == r) = true := by
          simp only [beq_iff_eq]
          exact fun hc => hy (hc ▸ hrn)
        rw [if_neg (fun hc => hy hc.1), ih hnd.2 h, List.erase_cons_tail hyrne]

/-- A frame lemma for row scans: a pointwise update that fixes every row whose
number differs from `n` does not disturb the scan for a number `m ≠ n`. -/
theorem findByNumber_map_frame {n m : Int} {f : Parcel → Parcel}
    (hnum : ∀ r, (f r).number = r.number) (hid : ∀ r, r.number ≠ n → f r = r)
    (l : List Parcel) (hm : m ≠ n) :
    findByNumber m (l.map f) = findByNumber m l := by
  rw [findByNumber_map hnum]
  cases h : findByNumber m l with
  | none => rfl
  | some r =>
      have hr : r.number = m := (findByNumber_eq_some h).2
      simp [hid r (fun hc => hm (hr ▸ hc))]

/-- Deleting by one number does not disturb the scan for another number. -/
theorem findByNumber_deleteRows {n m : Int} (hm : m ≠ n) (l : List Parcel) :
    findByNumber m (deleteRows n l) = findByNumber m l := by
  induction l with
  | nil => simp
  | cons y ys ih =>
      rw [deleteRows_cons, findByNumber_cons]
      by_cases hy : y.number = n ∧ y.status = "registered"
      · rw [if_pos hy]
        have hyne : ¬y.number = m := by
          rw [hy.1]; exact fun hc => hm hc.symm
        rw [if_neg hyne, ih]
      · rw [if_neg hy, findByNumber_cons]
        by_cases hym : y.number = m
        · rw [if_pos hym, if_pos hym]
        · rw [if_neg hym, if_neg hym, ih]

/-- A pointwise update that fixes every row with number other than `n`
preserves membership of such rows. -/
theorem mem_map_frame {n : Int} {f : Parcel → Parcel}
    (hnum : ∀ r, (f r).number = r.number) (hid : ∀ r, r.number ≠ n → f r = r)
    {l : List Parcel} {x : Parcel} (hx : x.number ≠ n) :
    x ∈ l.map f ↔ x ∈ l := by
  constructor
  · intro h
    rcases List.mem_map.mp h with ⟨y, hy, hxy⟩
    have hyne : y.number ≠ n := by
      rw [← hnum y, hxy]; exact hx
    rwa [← hxy, hid y hyne]
  · intro h
    rw [← hid x hx]
    exact List.mem_map_of_mem f h

theorem mem_rowsByClient {c : Int} {l : List Parcel} {x : Parcel} :
    x ∈ rowsByClient c l ↔ x ∈ l ∧ x.client = c := by
  induction l with
  | nil => simp
  | cons y ys ih =>
      rw [rowsByClient_cons]
      by_cases hy : y.client = c
      · rw [if_pos hy]
        simp only [List.mem_cons, ih]
        constructor
        · rintro (hxy | ⟨hmem, hc⟩)
          · exact ⟨Or.inl hxy, hxy ▸ hy⟩
          · exact ⟨Or.inr hmem, hc⟩
        · rintro ⟨hxy | hmem, hc⟩
          · exact Or.inl hxy
          · exact Or.inr ⟨hmem, hc⟩
      · rw [if_neg hy]
        simp only [ih, List.mem_cons]
        constructor
        · rintro ⟨hmem, hc⟩; exact ⟨Or.inr hmem, hc⟩
        · rintro ⟨hxy | hmem, hc⟩
          · exact absurd (hxy ▸ hc) hy
          · exact ⟨hmem, hc⟩

theorem rowsByClient_sublist (c : Int) (l : List Parcel) :
    List.Sublist (rowsByClient c l) l := by
  induction l with
  | nil => simp
  | cons y ys ih =>
      rw [rowsByClient_cons]
      by_cases hy : y.client = c
      · rw [if_pos hy]; exact ih.cons₂ y
      · rw [if_neg hy]; exact ih.cons y

theorem rowsByClient_eq_nil {c : Int} {l : List Parcel}
    (h : ∀ r ∈ l, r.client ≠ c) : rowsByClient c l = [] := by
  induction l with
  | nil => rfl
  | cons y ys ih =>
      rw [rowsByClient_cons, if_neg (h y (List.mem_cons_self y ys))]
      exact ih fun r hr => h r (List.mem_cons_of_mem _ hr)

/-- Pointwise maps relate a table to its update row by row. -/
theorem forall₂_map_self {P : Parcel → Parcel → Prop} (f : Parcel → Parcel)
    (hf : ∀ r, P r (f r)) (l : List Parcel) : List.Forall₂ P l (l.map f) := by
  induction l with
  | nil => exact List.Forall₂.nil
  | cons x xs ih => exact List.Forall₂.cons (hf x) ih

/-! ### Claim theorems -/

/-- C1: `SetAddress n a` changes the address of the stored row with number `n`
to `a` exactly when that row's status is `"registered"` at the time of the
call; when the row's status is not `"registered"`, or no row with number `n`
exists, the call succeeds and the store — every field of every row — is
unchanged. -/
theorem SetAddress_gate (s : ParcelStore) (n : Int) (a : String) (hwf : s.WF) :
    (∀ r, s.Get n = some r → r.status = "registered" →
        (s.SetAddress n a).Get n = some { r with address := a }) ∧
    (∀ r, s.Get n = some r → r.status ≠ "registered" → s.SetAddress n a = s) ∧
    (s.Get n = none → s.SetAddress n a = s) := by
  refine ⟨?_, ?_, ?_⟩
  · intro r hr hreg
    simp only [ParcelStore.Get, ParcelStore.SetAddress] at hr ⊢
    rw [findByNumber_map (updAddress_number n a), hr]
    have hn : r.number = n := (findByNumber_eq_some hr).2
    simp only [Option.map_some']
    unfold updAddress
    rw [if_pos ⟨hn, hreg⟩]
  · intro r hr hreg
    simp only [ParcelStore.Get] at hr
    have huniq := findByNumber_unique hwf.1 hr
    simp only [ParcelStore.SetAddress]
    rw [map_updAddress_id fun x hx hc => hreg ((huniq x hx hc.1) ▸ hc.2)]
  · intro h
    simp only [ParcelStore.Get] at h
    simp only [ParcelStore.SetAddress]
    rw [map_updAddress_id fun x hx hc => findByNumber_eq_none.mp h x hx hc.1]

/-- Witness for C1 at a concrete store: the registered row 1 has its address
changed, evaluated concretely. -/
theorem SetAddress_gate_witness :
    (sampleStore.SetAddress 1 "updated").Get 1 =
      some { number := 1, client := 7, status := "registered",
             address := "updated", createdAt := "2024-01-01T00:00:00Z" } :=
  (SetAddress_gate sampleStore 1 "updated" (by decide)).1 rowReg rfl rfl

/-- C4: `SetStatus n st` sets the status of the row with number `n` to `st`
regardless of the current status value, and is a silent no-op (success, store
unchanged) when no row with number `n` exists. -/
theorem SetStatus_unconditional (s : ParcelStore) (n : Int) (st : String) :
    (∀ r, s.Get n = some r →
        (s.SetStatus n st).Get n = some { r with status := st }) ∧
    (s.Get n = none → s.SetStatus n st = s) := by
  constructor
  · intro r hr
    simp only [ParcelStore.Get, ParcelStore.SetStatus] at hr ⊢
    rw [findByNumber_map (updStatus_number n st), hr]
    have hn : r.number = n := (findByNumber_eq_some hr).2
    simp only [Option.map_some']
    unfold updStatus
    rw [if_pos hn]
  · intro h
    simp only [ParcelStore.Get] at h
    simp only [ParcelStore.SetStatus]
    rw [map_updStatus_id (findByNumber_eq_none.mp h)]

/-- Witness for C4: the non-registered row 2 still gets its status changed. -/
theorem SetStatus_unconditional_witness :
    (sampleStore.SetStatus 2 "delivered").Get 2 =
      some { number := 2, client := 7, status := "delivered",
             address := "addr two", createdAt := "2024-01-02T00:00:00Z" } :=
  (SetStatus_unconditional sampleStore 2 "delivered").1 rowSent rfl

/-- C9: `Add` never reads the input's `Number` field — two parcels differing
only in `Number` produce the identical resulting store and the identical
returned key. -/
theorem Add_ignores_number (s : ParcelStore) (p q : Parcel)
    (hc : p.client = q.client) (hst : p.status = q.status)
    (ha : p.address = q.address) (ht : p.createdAt = q.createdAt) :
    s.Add p = s.Add q := by
  simp only [ParcelStore.Add, hc, hst, ha, ht]

/-- Witness for C9: parcels with numbers 100 and -5 but equal payload insert
identically. -/
theorem Add_ignores_number_witness :
    sampleStore.Add { number := 100, client := 1000, status := "registered",
                      address := "test", createdAt := "t0" } =
      sampleStore.Add { number := -5, client := 1000, status := "registered",
                        address := "test", createdAt := "t0" } :=
  Add_ignores_number sampleStore _ _ rfl rfl rfl rfl

/-- C2: `Delete n` removes the row with number `n` exactly when it exists and
its status is `"registered"`; otherwise the call succeeds with the table
unchanged.  In particular a freshly added registered parcel is gone after
`Delete` of the number `Add` returned: the subsequent `Get` yields the
not-found signal. -/
theorem Delete_gate (s : ParcelStore) (n : Int) (hwf : s.WF) :
    (∀ r, s.Get n = some r → r.status = "registered" →
        (s.Delete n).rows = s.rows.erase r ∧ (s.Delete n).Get n = none) ∧
    (∀ r, s.Get n = some r → r.status ≠ "registered" → s.Delete n = s) ∧
    (s.Get n = none → s.Delete n = s) ∧
    (∀ p, p.status = "registered" →
        ((s.Add p).2.Delete (s.Add p).1).Get (s.Add p).1 = none) := by
  refine ⟨?_, ?_, ?_, ?_⟩
  · intro r hr hreg
    simp only [ParcelStore.Get] at hr
    refine ⟨?_, ?_⟩
    · simp only [ParcelStore.Delete]
      exact deleteRows_eq_erase hwf.1 hr hreg
    · simp only [ParcelStore.Delete, ParcelStore.Get]
      apply findByNumber_eq_none.mpr
      intro x hx hxn
      rcases mem_deleteRows.mp hx with ⟨hmem, hnp⟩
      have hxr : x = r := findByNumber_unique hwf.1 hr x hmem hxn
      exact hnp ⟨hxn, hxr ▸ hreg⟩
  · intro r hr hreg
    simp only [ParcelStore.Get] at hr
    have huniq := findByNumber_unique hwf.1 hr
    simp only [ParcelStore.Delete]
    rw [deleteRows_id fun x hx hc => hreg ((huniq x hx hc.1) ▸ hc.2)]
  · intro h
    simp only [ParcelStore.Get] at h
    simp only [ParcelStore.Delete]
    rw [deleteRows_id fun x hx hc => findByNumber_eq_none.mp h x hx hc.1]
  · intro p hp
    simp only [ParcelStore.Add, ParcelStore.Delete, ParcelStore.Get]
    rw [deleteRows_append]
    have hfresh : ∀ r ∈ s.rows, r.number ≠ s.nextNumber :=
      fun r hr => ne_of_lt (hwf.2 r hr)
    rw [deleteRows_id fun x hx hc => hfresh x hx hc.1]
    rw [deleteRows_cons, if_pos ⟨rfl, hp⟩]
    simp only [deleteRows_nil, List.append_nil]
    exact findByNumber_eq_none.mpr hfresh

/-- Witness for C2: deleting registered row 1 makes `Get 1` fail; deleting the
non-registered row 2 leaves the store untouched. -/
theorem Delete_gate_witness :
    (sampleStore.Delete 1).Get 1 = none ∧ sampleStore.Delete 2 = sampleStore :=
  ⟨((Delete_gate sampleStore 1 (by decide)).1 rowReg rfl rfl).2,
   (Delete_gate sampleStore 2 (by decide)).2.1 rowSent rfl (by decide)⟩

/-- C3: round-trip — after `Add p` returns number `N`, `Get N` returns a
parcel whose `Client`, `Status`, `Address`, `CreatedAt` equal those of `p` and
whose `Number` is `N`. -/
theorem Add_Get_roundtrip (s : ParcelStore) (p : Parcel) (hwf : s.WF) :
    (s.Add p).2.Get (s.Add p).1 =
      some { number := (s.Add p).1, client := p.client, status := p.status,
             address := p.address, createdAt := p.createdAt } := by
  simp only [ParcelStore.Add, ParcelStore.Get]
  have hnone : findByNumber s.nextNumber s.rows = none :=
    findByNumber_eq_none.mpr fun r hr => ne_of_lt (hwf.2 r hr)
  rw [findByNumber_append_of_none hnone, findByNumber_cons, if_pos rfl]

/-- Witness for C3 at a concrete store and parcel. -/
theorem Add_Get_roundtrip_witness :
    (sampleStore.Add testParcel).2.Get (sampleStore.Add testParcel).1 =
      some { number := 3, client := 1000, status := "registered",
             address := "test", createdAt := "2024-03-01T00:00:00Z" } :=
  Add_Get_roundtrip sampleStore testParcel (by decide)

/-- C5: `Get n` yields the engine's no-rows signal exactly when no stored row
carries number `n`; when it succeeds the returned row is a stored row with
number `n`, and under the primary-key well-formedness it is the unique such
row.  (Structurally, `Get` is the only operation with a not-found outcome:
the mutations return no row data and discard the affected-row count.) -/
theorem Get_notFound_iff (s : ParcelStore) (n : Int) :
    (s.Get n = none ↔ ∀ r ∈ s.rows, r.number ≠ n) ∧
    (∀ r, s.Get n = some r → r ∈ s.rows ∧ r.number = n) ∧
    (s.WF → ∀ r, s.Get n = some r → ∀ x ∈ s.rows, x.number = n → x = r) :=
  ⟨findByNumber_eq_none, fun _ hr => findByNumber_eq_some hr,
   fun hwf _ hr => findByNumber_unique hwf.1 hr⟩

/-- Witness for C5: `Get 5` fails on the sample store, `Get 1` returns the
stored row. -/
theorem Get_notFound_iff_witness :
    sampleStore.Get 5 = none ∧ (rowReg ∈ sampleStore.rows ∧ rowReg.number = 1) :=
  ⟨(Get_notFound_iff sampleStore 5).1.mpr (by decide),
   (Get_notFound_iff sampleStore 1).2.1 rowReg rfl⟩

/-- C6: `GetByClient c` returns exactly the stored rows whose `Client` is `c`
— each returned parcel is a stored row, no matching row is omitted, nothing
is duplicated (the result is a sublist of the table, without duplicates when
the table is well formed) — and it is the empty sequence, not an error, when
no row matches. -/
theorem GetByClient_exact (s : ParcelStore) (c : Int) :
    (∀ r, r ∈ s.GetByClient c ↔ r ∈ s.rows ∧ r.client = c) ∧
    List.Sublist (s.GetByClient c) s.rows ∧
    (s.WF → (s.GetByClient c).Nodup) ∧
    ((∀ r ∈ s.rows, r.client ≠ c) → s.GetByClient c = []) := by
  refine ⟨fun r => mem_rowsByClient, rowsByClient_sublist c s.rows, ?_, ?_⟩
  · intro hwf
    exact List.Nodup.sublist (rowsByClient_sublist c s.rows)
      (List.Nodup.of_map Parcel.number hwf.1)
  · intro h
    exact rowsByClient_eq_nil h

/-- Witness for C6: client 7 owns both sample rows; client 9 owns none. -/
theorem GetByClient_exact_witness :
    sampleStore.GetByClient 9 = [] ∧ rowSent ∈ sampleStore.GetByClient 7 :=
  ⟨(GetByClient_exact sampleStore 9).2.2.2 (by decide),
   ((GetByClient_exact sampleStore 7).1 rowSent).mpr ⟨by decide, rfl⟩⟩

/-- C7: setting the status back to `"registered"` re-enables the gated
mutations — for any row with number `n`, whatever its current status, after
`SetStatus n "registered"` a `SetAddress n a` changes the address to `a`, and
a `Delete n` removes the row (a subsequent `Get n` fails). -/
theorem SetStatus_reopens_gate (s : ParcelStore) (n : Int) (a : String) :
    ∀ r, s.Get n = some r →
      ((s.SetStatus n "registered").SetAddress n a).Get n =
          some { r with status := "registered", address := a } ∧
      ((s.SetStatus n "registered").Delete n).Get n = none := by
  intro r hr
  have hn : r.number = n := (findByNumber_eq_some hr).2
  constructor
  · simp only [ParcelStore.Get, ParcelStore.SetStatus, ParcelStore.SetAddress] at hr ⊢
    rw [findByNumber_map (updAddress_number n a),
      findByNumber_map (updStatus_number n "registered"), hr]
    simp only [Option.map_some']
    unfold updStatus
    rw [if_pos hn]
    unfold updAddress
    rw [if_pos ⟨hn, rfl⟩]
  · simp only [ParcelStore.Get, ParcelStore.SetStatus, ParcelStore.Delete]
    apply findByNumber_eq_none.mpr
    intro x hx hxn
    rcases mem_deleteRows.mp hx with ⟨hmem, hnp⟩
    rcases List.mem_map.mp hmem with ⟨y, hy, hxy⟩
    apply hnp
    refine ⟨hxn, ?_⟩
    have hyn : y.number = n := by
      rw [← updStatus_number n "registered" y, hxy, hxn]
    rw [← hxy]
    unfold updStatus
    rw [if_pos hyn]

/-- Witness for C7: row 2 is `"sent"`; after re-registering it, its address
can be changed again. -/
theorem SetStatus_reopens_gate_witness :
    ((sampleStore.SetStatus 2 "registered").SetAddress 2 "back").Get 2 =
        some { number := 2, client := 7, status := "registered",
               address := "back", createdAt := "2024-01-02T00:00:00Z" } ∧
    ((sampleStore.SetStatus 2 "registered").Delete 2).Get 2 = none :=
  SetStatus_reopens_gate sampleStore 2 "back" rowSent rfl

/-- C8: identity immutability — `SetStatus` and `SetAddress` keep the table
the same length and preserve every row's `Number`, `Client` and `CreatedAt`
(each also fixes the other mutable field: `SetStatus` never touches an
address, `SetAddress` never touches a status), and `Add` leaves all existing
rows in place unchanged. -/
theorem identity_fields_immutable (s : ParcelStore) (n : Int) (st a : String)
    (p : Parcel) :
    List.Forall₂
      (fun r r' => r'.number = r.number ∧ r'.client = r.client ∧
        r'.createdAt = r.createdAt ∧ r'.address = r.address)
      s.rows (s.SetStatus n st).rows ∧
    List.Forall₂
      (fun r r' => r'.number = r.number ∧ r'.client = r.client ∧
        r'.createdAt = r.createdAt ∧ r'.status = r.status)
      s.rows (s.SetAddress n a).rows ∧
    (s.Add p).2.rows.take s.rows.length = s.rows := by
  refine ⟨?_, ?_, ?_⟩
  · apply forall₂_map_self
    intro r
    unfold updStatus
    split <;> exact ⟨rfl, rfl, rfl, rfl⟩
  · apply forall₂_map_self
    intro r
    unfold updAddress
    split <;> exact ⟨rfl, rfl, rfl, rfl⟩
  · simp only [ParcelStore.Add]
    exact List.take_left s.rows _

/-- C10: frame — a mutation keyed on `n` leaves every row with a different
number untouched: scans for any other number are unaffected, and membership
of rows with other numbers is preserved by all three mutations. -/
theorem mutation_frame (s : ParcelStore) (n m : Int) (st a : String)
    (hm : m ≠ n) :
    (s.SetStatus n st).Get m = s.Get m ∧
    (s.SetAddress n a).Get m = s.Get m ∧
    (s.Delete n).Get m = s.Get m ∧
    (∀ r, r.number ≠ n →
      ((r ∈ (s.SetStatus n st).rows ↔ r ∈ s.rows) ∧
       (r ∈ (s.SetAddress n a).rows ↔ r ∈ s.rows) ∧
       (r ∈ (s.Delete n).rows ↔ r ∈ s.rows))) := by
  refine ⟨?_, ?_, ?_, ?_⟩
  · simp only [ParcelStore.Get, ParcelStore.SetStatus]
    exact findByNumber_map_frame (updStatus_number n st)
      (fun r hr => updStatus_of_ne hr) s.rows hm
  · simp only [ParcelStore.Get, ParcelStore.SetAddress]
    exact findByNumber_map_frame (updAddress_number n a)
      (fun r hr => updAddress_of_ne hr) s.rows hm
  · simp only [ParcelStore.Get, ParcelStore.Delete]
    exact findByNumber_deleteRows hm s.rows
  · intro r hr
    refine ⟨?_, ?_, ?_⟩
    · simp only [ParcelStore.SetStatus]
      exact mem_map_frame (updStatus_number n st)
        (fun x hx => updStatus_of_ne hx) hr
    · simp only [ParcelStore.SetAddress]
      exact mem_map_frame (updAddress_number n a)
        (fun x hx => updAddress_of_ne hx) hr
    · simp only [ParcelStore.Delete]
      rw [mem_deleteRows]
      exact ⟨fun h => h.1, fun h => ⟨h, fun hc => hr hc.1⟩⟩

/-- Witness for C10: deleting row 2 does not disturb row 1. -/
theorem mutation_frame_witness :
    (sampleStore.Delete 2).Get 1 = sampleStore.Get 1 ∧
    (rowReg ∈ (sampleStore.SetStatus 2 "lost").rows ↔ rowReg ∈ sampleStore.rows) :=
  ⟨(mutation_frame sampleStore 2 1 "x" "y" (by decide)).2.2.1,
   ((mutation_frame sampleStore 2 1 "lost" "y" (by decide)).2.2.2 rowReg
      (by decide)).1⟩
